import Mathlib

/-!
Verification development for the Skardu Organic Store client application.

The definitions below are a shallow embedding of the cart context, auth
context, checkout page and route dispatch found in the application source.
JavaScript numbers that hold integral ids, prices and quantities are
modelled as `Int`; strings as `String`; the optional `password?` parameter
as `Option String`.  React `useState` state is modelled by explicit record
states threaded through the handler functions.  Crucially, a handler runs
inside one render closure: every read of a `useState` variable inside the
handler sees the value captured at render time, even after a setter was
called earlier in the same handler.  The embedding reproduces this (see
`register`).
-/

namespace SkarduStore

/-- The fields of a catalog product that the cart logic reads.  The source
spreads the whole product record into the line item; the remaining fields
(category, rating, images, description) are presentational and never
inspected by the cart, so they are omitted from the embedding. -/
structure Product where
  id : Int
  name : String
  price : Int
  deriving Repr, DecidableEq

/-- A cart line item: the product snapshot plus a quantity, as produced by
`addToCart` spreading the product and adding `quantity`. -/
structure CartItem where
  id : Int
  name : String
  price : Int
  quantity : Int
  deriving Repr, DecidableEq

/-- Spread a product into a line item with the given quantity, mirroring
the object spread in the source. -/
def Product.withQuantity (p : Product) (q : Int) : CartItem :=
  ⟨p.id, p.name, p.price, q⟩

/-- `addToCart(product)`: if a line item with the same id exists, map over
the items incrementing that quantity by 1; otherwise append the spread
product with quantity 1. -/
def addToCart (items : List CartItem) (product : Product) : List CartItem :=
  match items.find? (fun item => item.id == product.id) with
  | some _ =>
      items.map (fun item =>
        if item.id == product.id then { item with quantity := item.quantity + 1 } else item)
  | none => items ++ [product.withQuantity 1]

/-- `removeFromCart(productId)`: keep the items whose id differs. -/
def removeFromCart (items : List CartItem) (productId : Int) : List CartItem :=
  items.filter (fun item => item.id != productId)

/-- `updateQuantity(productId, quantity)`: for a non-positive quantity
delegate to `removeFromCart`; otherwise map over the items replacing the
quantity of the matching one. -/
def updateQuantity (items : List CartItem) (productId : Int) (quantity : Int) :
    List CartItem :=
  if quantity ≤ 0 then
    removeFromCart items productId
  else
    items.map (fun item =>
      if item.id == productId then { item with quantity := quantity } else item)

/-- `clearCart()`: the empty item list. -/
def clearCart (_items : List CartItem) : List CartItem := []

/-- `cartCount`: reduce over the items summing the quantities, starting
from 0. -/
def cartCount (items : List CartItem) : Int :=
  items.foldl (fun count item => count + item.quantity) 0

/-- `cartTotal`: reduce over the items summing price times quantity,
starting from 0. -/
def cartTotal (items : List CartItem) : Int :=
  items.foldl (fun total item => total + item.price * item.quantity) 0

/-- One user interaction with the cart context, for reachability
statements over the exported operations. -/
inductive CartOp where
  | add (product : Product)
  | remove (productId : Int)
  | setQuantity (productId : Int) (quantity : Int)
  | clear
  deriving Repr

/-- Apply one cart operation to a cart state. -/
def applyCartOp (items : List CartItem) : CartOp → List CartItem
  | .add p => addToCart items p
  | .remove pid => removeFromCart items pid
  | .setQuantity pid q => updateQuantity items pid q
  | .clear => clearCart items

/-- Apply a sequence of cart operations from left to right. -/
def applyCartOps (items : List CartItem) (ops : List CartOp) : List CartItem :=
  ops.foldl applyCartOp items

/-- A registered identity as stored in the users registry.  The source
declares the password parameter optional (`password?: string`), so it is
an `Option String` here. -/
structure User where
  name : String
  email : String
  password : Option String
  deriving Repr, DecidableEq

/-- The redacted view stored as the current user: name and email only. -/
structure Session where
  name : String
  email : String
  deriving Repr, DecidableEq

/-- The auth provider state: the two `useState` variables plus the two
`localStorage` keys the provider writes (`users` and `currentUser`). -/
structure AuthState where
  users : List User
  currentUser : Option Session
  storedUsers : List User
  storedCurrentUser : Option Session
  deriving Repr, DecidableEq

/-- The provider state before anything is registered and with no persisted
data to restore. -/
def initAuthState : AuthState :=
  ⟨[], none, [], none⟩

/-- `login(email, password)`: find a user matching both email and
password.  On a hit, store the redacted user as the current user both in
state and in local storage and return true; otherwise return false and
leave every piece of state alone. -/
def login (s : AuthState) (email : String) (password : Option String) :
    Bool × AuthState :=
  match s.users.find? (fun u => u.email == email && u.password == password) with
  | some u =>
      let userToStore : Session := ⟨u.name, u.email⟩
      (true, { s with currentUser := some userToStore,
                      storedCurrentUser := some userToStore })
  | none => (false, s)

/-- `logout()`: clear the current user in state and remove the persisted
record. -/
def logout (s : AuthState) : AuthState :=
  { s with currentUser := none, storedCurrentUser := none }

/-- `register(name, email, password)`: reject when some user already has
the email.  Otherwise append the new user, persist the updated registry,
call `login` with the same credentials and return true.  The nested
`login` call runs inside the same render closure as `register`, so the
`users` it searches is the list captured at render time — the list from
before `setUsers` — exactly as in the source component. -/
def register (s : AuthState) (name : String) (email : String)
    (password : Option String) : Bool × AuthState :=
  if s.users.any (fun u => u.email == email) then
    (false, s)
  else
    let newUser : User := ⟨name, email, password⟩
    let updatedUsers := s.users ++ [newUser]
    let s1 := { s with users := updatedUsers, storedUsers := updatedUsers }
    -- the stale closure: login searches s.users, not updatedUsers
    let afterLogin :=
      match s.users.find? (fun u => u.email == email && u.password == password) with
      | some u =>
          let userToStore : Session := ⟨u.name, u.email⟩
          { s1 with currentUser := some userToStore,
                    storedCurrentUser := some userToStore }
      | none => s1
    (true, afterLogin)

/-- One user interaction with the auth provider, for reachability
statements over the exported operations. -/
inductive AuthOp where
  | registerOp (name email : String) (password : Option String)
  | loginOp (email : String) (password : Option String)
  | logoutOp
  deriving Repr

/-- Apply one auth operation to an auth state, discarding the boolean
result. -/
def applyAuthOp (s : AuthState) : AuthOp → AuthState
  | .registerOp n e p => (register s n e p).2
  | .loginOp e p => (login s e p).2
  | .logoutOp => logout s

/-- Apply a sequence of auth operations from left to right. -/
def applyAuthOps (s : AuthState) (ops : List AuthOp) : AuthState :=
  ops.foldl applyAuthOp s

/-- The billing details record edited on the checkout page. -/
structure BillingDetails where
  firstName : String
  lastName : String
  email : String
  phone : String
  address : String
  city : String
  state : String
  zip : String
  deriving Repr, DecidableEq

/-- The placed-order snapshot retained after the cart is cleared. -/
structure PlacedOrder where
  details : BillingDetails
  items : List CartItem
  total : Int
  deriving Repr, DecidableEq

/-- The checkout page state: the cart it reads through `useCart`, the
billing form fields and the placed-order snapshot. -/
structure CheckoutState where
  cartItems : List CartItem
  billingDetails : BillingDetails
  placedOrder : Option PlacedOrder
  deriving Repr, DecidableEq

/-- The per-item line appended to the order message:
`- name (xq) - Rs price*q` followed by a newline. -/
def itemLine (item : CartItem) : String :=
  "- " ++ item.name ++ " (x" ++ toString item.quantity ++ ") - Rs " ++
    toString (item.price * item.quantity) ++ "\n"

/-- `constructStoreOrderMessage()`: the header with the customer fields,
then one appended line per cart item, then the bold total line. -/
def constructStoreOrderMessage (b : BillingDetails) (cartItems : List CartItem) :
    String :=
  let message := "*New Order from Skardu Organic*\n\n"
  let message := message ++ "*Customer Details:*\n"
  let message := message ++ "Name: " ++ b.firstName ++ " " ++ b.lastName ++ "\n"
  let message := message ++ "Email: " ++ b.email ++ "\n"
  let message := message ++ "Phone: " ++ b.phone ++ "\n"
  let message := message ++ "Address: " ++ b.address ++ ", " ++ b.city ++ ", " ++
    b.state ++ " " ++ b.zip ++ "\n\n"
  let message := message ++ "*Order Summary:*\n"
  let message := cartItems.foldl (fun acc item => acc ++ itemLine item) message
  message ++ "\n*Total: Rs " ++ toString (cartTotal cartItems) ++ "*"

/-- `processOrder()`: snapshot the billing details, the cart items and the
cart total into `placedOrder`, then clear the cart. -/
def processOrder (s : CheckoutState) : CheckoutState :=
  { s with
      placedOrder := some ⟨s.billingDetails, s.cartItems, cartTotal s.cartItems⟩,
      cartItems := clearCart s.cartItems }

/-- `handleWhatsAppOrder`: compose the order message (handed to a deep
link opened in the browser, an effect outside this state model) and run
`processOrder`.  Returns the composed message alongside the new state. -/
def handleWhatsAppOrder (s : CheckoutState) : String × CheckoutState :=
  let message := constructStoreOrderMessage s.billingDetails s.cartItems
  (message, processOrder s)

/-- `handleEmailOrder`: like `handleWhatsAppOrder` but the message body
has the markdown asterisks stripped before being embedded in the mailto
link. -/
def handleEmailOrder (s : CheckoutState) : String × CheckoutState :=
  let body := (constructStoreOrderMessage s.billingDetails s.cartItems).replace "*" ""
  (body, processOrder s)

/-- The dispatched page identifier produced by `renderPage`. -/
inductive Page where
  | home
  | shop
  | about
  | contact
  | checkout
  | auth
  | refundPolicy
  | privacyPolicy
  | terms
  | product (id : Nat)
  deriving Repr, DecidableEq

/-- Decimal value of a digit sequence, as `parseInt(s, 10)` computes it on
the match of `\d+`. -/
def decimalValue (cs : List Char) : Nat :=
  cs.foldl (fun n c => n * 10 + (c.toNat - 48)) 0

/-- Whether the route matches the anchored pattern for a product page:
the literal head `#/product/` followed by one or more digits.  The match
runs over the character sequence of the fragment. -/
def matchesProductRoute (route : String) : Bool :=
  "#/product/".data.isPrefixOf route.data &&
    (let rest := route.data.drop "#/product/".data.length
     !rest.isEmpty && rest.all Char.isDigit)

/-- The switch over the static routes in `renderPage`; every unlisted
route, including `#/` itself, takes the default case and renders the home
page. -/
def staticDispatch (route : String) : Page :=
  if route == "#/shop" then .shop
  else if route == "#/about" then .about
  else if route == "#/contact" then .contact
  else if route == "#/checkout" then .checkout
  else if route == "#/auth" then .auth
  else if route == "#/refund-policy" then .refundPolicy
  else if route == "#/privacy-policy" then .privacyPolicy
  else if route == "#/terms" then .terms
  else .home

/-- `renderPage()` restricted to which page it dispatches to: first try
the anchored product pattern and parse its id, then fall through to the
switch over the static routes. -/
def renderPage (route : String) : Page :=
  if matchesProductRoute route then
    .product (decimalValue (route.data.drop "#/product/".data.length))
  else
    staticDispatch route

/-! ### Cart lemmas -/

/-- Folding an accumulating sum equals the initial value plus the mapped
sum. -/
lemma foldl_add_eq (f : CartItem → Int) (items : List CartItem) (init : Int) :
    items.foldl (fun c i => c + f i) init = init + (items.map f).sum := by
  induction items generalizing init with
  | nil => simp
  | cons a t ih => simp [ih, add_assoc]

lemma cartCount_eq_sum (items : List CartItem) :
    cartCount items = (items.map (fun i => i.quantity)).sum := by
  simpa using foldl_add_eq (fun i => i.quantity) items 0

lemma cartTotal_eq_sum (items : List CartItem) :
    cartTotal items = (items.map (fun i => i.price * i.quantity)).sum := by
  simpa using foldl_add_eq (fun i => i.price * i.quantity) items 0

/-- Incrementing the quantity of every item matching an id adds the number
of matching items to the quantity sum. -/
lemma sum_map_inc (pid : Int) (items : List CartItem) :
    ((items.map (fun item =>
        if item.id == pid then { item with quantity := item.quantity + 1 }
        else item)).map (fun i => i.quantity)).sum
      = (items.map (fun i => i.quantity)).sum +
          (items.countP (fun i => i.id == pid) : Int) := by
  induction items with
  | nil => simp
  | cons a t ih =>
    simp only [List.map_cons, List.sum_cons, List.countP_cons]
    rw [ih]
    by_cases h : a.id = pid
    · simp only [h, beq_self_eq_true, if_true]
      push_cast
      ring
    · simp only [h, beq_iff_eq, if_false, ite_false]
      push_cast
      simp [h]
      ring

/-- Under pairwise-distinct ids, a member's id is matched by exactly one
item. -/
lemma countP_id_of_mem (items : List CartItem) (u : CartItem)
    (hp : items.Pairwise (fun a b => a.id ≠ b.id)) (hu : u ∈ items) :
    items.countP (fun i => i.id == u.id) = 1 := by
  induction items with
  | nil => cases hu
  | cons a t ih =>
    rw [List.pairwise_cons] at hp
    rcases List.mem_cons.mp hu with rfl | hmem
    · have hz : t.countP (fun i => i.id == u.id) = 0 := by
        rw [List.countP_eq_zero]
        intro i hi
        simp [Ne.symm (hp.1 i hi)]
      simp [List.countP_cons, hz]
    · have ha : (a.id == u.id) = false := by
        simpa using hp.1 u hmem
      simp [List.countP_cons, ha, ih hp.2 hmem]

/-- Adding an item to a cart with pairwise-distinct ids raises the item
count by exactly one. -/
lemma cartCount_addToCart (items : List CartItem) (p : Product)
    (hp : items.Pairwise (fun a b => a.id ≠ b.id)) :
    cartCount (addToCart items p) = cartCount items + 1 := by
  unfold addToCart
  cases hfind : items.find? (fun item => item.id == p.id) with
  | none =>
    simp [cartCount_eq_sum, Product.withQuantity]
  | some u =>
    have hu := List.mem_of_find?_eq_some hfind
    have hid : u.id = p.id := by simpa using List.find?_some hfind
    have hone : items.countP (fun i => i.id == p.id) = 1 := by
      rw [← hid]
      exact countP_id_of_mem items u hp hu
    rw [cartCount_eq_sum, cartCount_eq_sum, sum_map_inc, hone]
    norm_num

/-- `addToCart` preserves pairwise-distinct ids. -/
lemma pairwise_addToCart (items : List CartItem) (p : Product)
    (hp : items.Pairwise (fun a b => a.id ≠ b.id)) :
    (addToCart items p).Pairwise (fun a b => a.id ≠ b.id) := by
  unfold addToCart
  cases hfind : items.find? (fun item => item.id == p.id) with
  | some u =>
    refine List.Pairwise.map _ (fun a b hab => ?_) hp
    by_cases ha : a.id == p.id <;> by_cases hb : b.id == p.id <;>
      simpa [ha, hb] using hab
  | none =>
    rw [List.pairwise_append]
    refine ⟨hp, by simp, fun a ha b hb => ?_⟩
    have hnone := List.find?_eq_none.mp hfind a ha
    rcases List.mem_singleton.mp hb with rfl
    simpa [Product.withQuantity] using hnone

lemma pairwise_foldl_addToCart (ps : List Product) (items : List CartItem)
    (hp : items.Pairwise (fun a b => a.id ≠ b.id)) :
    (ps.foldl addToCart items).Pairwise (fun a b => a.id ≠ b.id) := by
  induction ps generalizing items with
  | nil => exact hp
  | cons p t ih => exact ih _ (pairwise_addToCart items p hp)

lemma cartCount_foldl_addToCart (ps : List Product) (items : List CartItem)
    (hp : items.Pairwise (fun a b => a.id ≠ b.id)) :
    cartCount (ps.foldl addToCart items) = cartCount items + ps.length := by
  induction ps generalizing items with
  | nil => simp [List.foldl_nil]
  | cons p t ih =>
    rw [List.foldl_cons, ih _ (pairwise_addToCart items p hp),
      cartCount_addToCart items p hp, List.length_cons]
    push_cast
    ring

/-- All quantities of items present in a cart are strictly positive. -/
def quantitiesPos (items : List CartItem) : Prop :=
  ∀ i ∈ items, 0 < i.quantity

/-- Every single cart operation preserves strict positivity of the stored
quantities. -/
lemma quantitiesPos_applyCartOp (items : List CartItem) (op : CartOp)
    (h : quantitiesPos items) : quantitiesPos (applyCartOp items op) := by
  cases op with
  | add p =>
    simp only [applyCartOp]
    unfold addToCart
    cases hfind : items.find? (fun item => item.id == p.id) with
    | some u =>
      intro i hi
      obtain ⟨x, hx, rfl⟩ := List.mem_map.mp hi
      by_cases hxi : x.id == p.id
      · have := h x hx
        simp only [hxi, if_true]
        omega
      · simpa [hxi] using h x hx
    | none =>
      intro i hi
      rcases List.mem_append.mp hi with hmem | hsing
      · exact h i hmem
      · rcases List.mem_singleton.mp hsing with rfl
        simp [Product.withQuantity]
  | remove pid =>
    intro i hi
    exact h i (List.mem_of_mem_filter hi)
  | setQuantity pid q =>
    simp only [applyCartOp]
    unfold updateQuantity
    by_cases hq : q ≤ 0
    · rw [if_pos hq]
      intro i hi
      exact h i (List.mem_of_mem_filter hi)
    · rw [if_neg hq]
      intro i hi
      obtain ⟨x, hx, rfl⟩ := List.mem_map.mp hi
      by_cases hxi : x.id == pid
      · simp only [hxi, if_true]
        omega
      · simpa [hxi] using h x hx
  | clear =>
    intro i hi
    cases hi

lemma quantitiesPos_applyCartOps (items : List CartItem) (ops : List CartOp)
    (h : quantitiesPos items) : quantitiesPos (applyCartOps items ops) := by
  induction ops generalizing items with
  | nil => exact h
  | cons op t ih => exact ih _ (quantitiesPos_applyCartOp items op h)

/-- C4: For every finite sequence of addItem calls starting from the empty
cart, itemCount equals the total number of calls and subtotal equals the
sum over line items of unitPrice times quantity; in particular the cart
with line items (id 1, price 500, qty 2) and (id 2, price 1200, qty 1) has
subtotal 2200 and itemCount 3. -/
theorem addToCart_count_and_subtotal :
    (∀ ps : List Product, cartCount (ps.foldl addToCart []) = ps.length) ∧
    (∀ items : List CartItem,
      cartTotal items = (items.map (fun i => i.price * i.quantity)).sum) ∧
    (∀ n₁ n₂ : String,
      cartTotal [⟨1, n₁, 500, 2⟩, ⟨2, n₂, 1200, 1⟩] = 2200 ∧
      cartCount [⟨1, n₁, 500, 2⟩, ⟨2, n₂, 1200, 1⟩] = 3) := by
  refine ⟨fun ps => ?_, cartTotal_eq_sum, fun n₁ n₂ => ⟨rfl, rfl⟩⟩
  simpa [cartCount] using cartCount_foldl_addToCart ps [] (by simp)

/-- C10: setting a positive quantity for a product id that has no line
item in the cart leaves the cart completely unchanged. -/
theorem updateQuantity_absent_id_noop :
    ∀ (items : List CartItem) (pid q : Int), 0 < q →
      (∀ i ∈ items, i.id ≠ pid) → updateQuantity items pid q = items := by
  intro items pid q hq habs
  unfold updateQuantity
  rw [if_neg (by omega)]
  have : items.map (fun item =>
      if item.id == pid then { item with quantity := q } else item)
      = items.map id :=
    List.map_congr_left (fun a ha => by simp [habs a ha])
  simpa using this

/-- Closed witness for the noop theorem at a concrete cart and id. -/
theorem updateQuantity_absent_id_noop_witness :
    updateQuantity [⟨1, "Shilajit", 1500, 2⟩] 7 5 = [⟨1, "Shilajit", 1500, 2⟩] :=
  updateQuantity_absent_id_noop [⟨1, "Shilajit", 1500, 2⟩] 7 5 (by decide)
    (by decide)

/-- C9: every cart state reachable from the empty cart by add, remove,
set-quantity and clear operations has strictly positive quantities, and a
set-quantity with a non-positive quantity removes the line item rather
than storing the value. -/
theorem cart_quantities_strictly_positive :
    (∀ ops : List CartOp, ∀ i ∈ applyCartOps [] ops, 0 < i.quantity) ∧
    (∀ (items : List CartItem) (pid q : Int), q ≤ 0 →
      updateQuantity items pid q = removeFromCart items pid ∧
      ∀ i ∈ updateQuantity items pid q, i.id ≠ pid) := by
  constructor
  · intro ops
    exact quantitiesPos_applyCartOps [] ops (by intro i hi; cases hi)
  · intro items pid q hq
    have heq : updateQuantity items pid q = removeFromCart items pid := by
      unfold updateQuantity
      rw [if_pos hq]
    refine ⟨heq, ?_⟩
    rw [heq]
    intro i hi
    have := List.of_mem_filter hi
    simpa using this

/-- Closed witness: the positivity invariant and the removal clause at a
concrete operation sequence and a concrete non-positive update. -/
theorem cart_quantities_strictly_positive_witness :
    (0 : Int) < (⟨1, "Shilajit", 1500, 3⟩ : CartItem).quantity ∧
    updateQuantity [⟨1, "Shilajit", 1500, 3⟩] 1 0 =
      removeFromCart [⟨1, "Shilajit", 1500, 3⟩] 1 :=
  ⟨cart_quantities_strictly_positive.1
      [.add ⟨1, "Shilajit", 1500⟩, .setQuantity 1 3]
      ⟨1, "Shilajit", 1500, 3⟩ (by decide),
    (cart_quantities_strictly_positive.2 [⟨1, "Shilajit", 1500, 3⟩] 1 0
      (by decide)).1⟩

/-- The quantity-increment map applied by `addToCart` when a line item
already exists, as a named function (definitionally the inline lambda of
the source). -/
def incQty (qid : Int) (item : CartItem) : CartItem :=
  if item.id == qid then { item with quantity := item.quantity + 1 }
  else item

lemma incQty_id (qid : Int) (item : CartItem) :
    (incQty qid item).id = item.id := by
  unfold incQty
  split <;> rfl

lemma incQty_of_ne (qid : Int) (item : CartItem) (h : item.id ≠ qid) :
    incQty qid item = item := by
  simp [incQty, h]

/-- `addToCart` rewritten through the named increment map; this is a
definitional equality. -/
lemma addToCart_eq (items : List CartItem) (p : Product) :
    addToCart items p =
      match items.find? (fun item => item.id == p.id) with
      | some _ => items.map (incQty p.id)
      | none => items ++ [p.withQuantity 1] := rfl

/-- Removing the items matching an id commutes with the quantity-increment
map of `addToCart`, because the map never changes an item's id. -/
lemma filter_ne_map_inc (items : List CartItem) (qid pid : Int) :
    (items.map (incQty qid)).filter (fun item => item.id != pid)
      = (items.filter (fun item => item.id != pid)).map (incQty qid) := by
  induction items with
  | nil => rfl
  | cons a t ih =>
    rw [List.map_cons, List.filter_cons, List.filter_cons]
    by_cases hp : a.id = pid
    · rw [if_neg (by simp [incQty_id, hp]), if_neg (by simp [hp]), ih]
    · rw [if_pos (by simp [incQty_id, hp]), if_pos (by simp [hp]),
        List.map_cons, ih]

/-- A failed lookup stays failed after removing items. -/
lemma find?_filter_none (items : List CartItem) (qid pid : Int)
    (h : items.find? (fun item => item.id == qid) = none) :
    (items.filter (fun item => item.id != pid)).find?
      (fun item => item.id == qid) = none := by
  rw [List.find?_eq_none] at h ⊢
  intro x hx
  exact h x (List.mem_of_mem_filter hx)

/-- A successful lookup for an id other than the removed one stays
successful after removing. -/
lemma find?_filter_isSome (items : List CartItem) (qid pid : Int)
    (hne : qid ≠ pid) (u : CartItem)
    (h : items.find? (fun item => item.id == qid) = some u) :
    ∃ v, (items.filter (fun item => item.id != pid)).find?
      (fun item => item.id == qid) = some v := by
  have hu := List.mem_of_find?_eq_some h
  have hid : u.id = qid := by simpa using List.find?_some h
  have hex : ∃ x ∈ items.filter (fun item => item.id != pid),
      (x.id == qid) = true :=
    ⟨u, List.mem_filter.mpr ⟨hu, by simp [hid, hne]⟩, by simp [hid]⟩
  exact Option.isSome_iff_exists.mp (List.find?_isSome.mpr hex)

/-- Removing an id from a cart after an add equals first removing and then
adding, except that adding the removed id is cancelled entirely. -/
lemma removeFromCart_addToCart (items : List CartItem) (p : Product)
    (pid : Int) :
    removeFromCart (addToCart items p) pid =
      if p.id == pid then removeFromCart items pid
      else addToCart (removeFromCart items pid) p := by
  by_cases hpp : p.id = pid
  · rw [if_pos (by simp [hpp]), addToCart_eq]
    unfold removeFromCart
    cases hfind : items.find? (fun item => item.id == p.id) with
    | some u =>
      simp only
      rw [filter_ne_map_inc]
      have hcong : ∀ a ∈ items.filter (fun item => item.id != pid),
          incQty p.id a = a := by
        intro a ha
        have hane : a.id ≠ pid := by simpa using List.of_mem_filter ha
        exact incQty_of_ne p.id a (hpp ▸ hane)
      simpa using List.map_congr_left hcong
    | none =>
      simp only
      rw [List.filter_append]
      simp [Product.withQuantity, hpp]
  · rw [if_neg (by simp [hpp]), addToCart_eq, addToCart_eq]
    unfold removeFromCart
    cases hfind : items.find? (fun item => item.id == p.id) with
    | some u =>
      obtain ⟨v, hv⟩ := find?_filter_isSome items p.id pid hpp u hfind
      simp only [hv]
      exact filter_ne_map_inc items p.id pid
    | none =>
      have hnone := find?_filter_none items p.id pid hfind
      simp only [hnone, List.filter_append]
      simp [Product.withQuantity, hpp]

/-- Removing an id from a cart built by a sequence of adds equals building
the cart from the sequence with the adds of that id dropped. -/
lemma removeFromCart_foldl_addToCart (ps : List Product)
    (items : List CartItem) (pid : Int) :
    removeFromCart (ps.foldl addToCart items) pid =
      (ps.filter (fun p => p.id != pid)).foldl addToCart
        (removeFromCart items pid) := by
  induction ps generalizing items with
  | nil => rfl
  | cons p t ih =>
    rw [List.foldl_cons, ih, removeFromCart_addToCart]
    by_cases hp : p.id = pid
    · rw [if_pos (by simp [hp]), List.filter_cons, if_neg (by simp [hp])]
    · rw [if_neg (by simp [hp]), List.filter_cons, if_pos (by simp [hp]),
        List.foldl_cons]

/-- C3: a set-quantity with non-positive quantity equals a remove; the
removed id has no line item afterwards; the item count and subtotal after
the remove equal those of the cart built as if that product was never
added; and a positive set-quantity stores exactly the given quantity. -/
theorem setQuantity_nonpos_is_remove :
    (∀ (items : List CartItem) (pid q : Int), q ≤ 0 →
      updateQuantity items pid q = removeFromCart items pid) ∧
    (∀ (items : List CartItem) (pid : Int),
      ∀ i ∈ removeFromCart items pid, i.id ≠ pid) ∧
    (∀ (ps : List Product) (pid : Int),
      cartCount (removeFromCart (ps.foldl addToCart []) pid) =
        cartCount ((ps.filter (fun p => p.id != pid)).foldl addToCart []) ∧
      cartTotal (removeFromCart (ps.foldl addToCart []) pid) =
        cartTotal ((ps.filter (fun p => p.id != pid)).foldl addToCart [])) ∧
    (∀ (items : List CartItem) (pid q : Int), 0 < q →
      ∀ i ∈ updateQuantity items pid q, i.id = pid → i.quantity = q) := by
  refine ⟨fun items pid q hq => ?_, fun items pid i hi => ?_,
    fun ps pid => ?_, fun items pid q hq i hi hid => ?_⟩
  · unfold updateQuantity
    rw [if_pos hq]
  · have := List.of_mem_filter hi
    simpa using this
  · rw [removeFromCart_foldl_addToCart]
    exact ⟨rfl, rfl⟩
  · unfold updateQuantity at hi
    rw [if_neg (by omega)] at hi
    obtain ⟨x, hx, rfl⟩ := List.mem_map.mp hi
    by_cases hxi : x.id == pid
    · simp [hxi]
    · rw [if_neg (by simp [hxi])] at hid ⊢
      exact absurd hid (by simpa using hxi)

/-- Closed witness: the non-positive update at a concrete cart, and the
exact quantity stored by a concrete positive update. -/
theorem setQuantity_nonpos_is_remove_witness :
    updateQuantity [⟨1, "Shilajit", 1500, 2⟩] 1 (-1) =
      removeFromCart [⟨1, "Shilajit", 1500, 2⟩] 1 ∧
    (⟨1, "Shilajit", 1500, 5⟩ : CartItem).quantity = 5 :=
  ⟨setQuantity_nonpos_is_remove.1 [⟨1, "Shilajit", 1500, 2⟩] 1 (-1)
      (by decide),
    setQuantity_nonpos_is_remove.2.2.2 [⟨1, "Shilajit", 1500, 2⟩] 1 5
      (by decide) ⟨1, "Shilajit", 1500, 5⟩ (by decide) (by decide)⟩

/-! ### Auth lemmas -/

/-- C5: login succeeds exactly when a stored identity matches both email
and password; on success the active session becomes the redacted matching
identity; on failure nothing in the state changes. -/
theorem login_iff_matching_identity :
    ∀ (s : AuthState) (email : String) (password : Option String),
      ((login s email password).1 = true ↔
        ∃ u ∈ s.users, u.email = email ∧ u.password = password) ∧
      ((login s email password).1 = true →
        ∃ u ∈ s.users, u.email = email ∧ u.password = password ∧
          (login s email password).2.currentUser = some ⟨u.name, u.email⟩) ∧
      ((login s email password).1 = false →
        (login s email password).2 = s) := by
  intro s email password
  unfold login
  cases hfind : s.users.find? (fun u => u.email == email && u.password == password) with
  | some u =>
    have hu := List.mem_of_find?_eq_some hfind
    have hmatch := List.find?_some hfind
    rw [Bool.and_eq_true, beq_iff_eq, beq_iff_eq] at hmatch
    refine ⟨⟨fun _ => ⟨u, hu, hmatch.1, hmatch.2⟩, fun _ => rfl⟩,
      fun _ => ⟨u, hu, hmatch.1, hmatch.2, rfl⟩, fun h => ?_⟩
    simp at h
  | none =>
    have hnone := List.find?_eq_none.mp hfind
    refine ⟨⟨fun h => by simp at h, fun ⟨u, hu, he, hpw⟩ => ?_⟩,
      fun h => by simp at h, fun _ => rfl⟩
    exact absurd (by simp [he, hpw]) (hnone u hu)

/-- Closed witness: a failed login on the empty state leaves the state
unchanged, and a successful login against a one-user registry returns
true. -/
theorem login_iff_matching_identity_witness :
    (login initAuthState "ali@example.com" (some "pw")).2 = initAuthState ∧
    (login ⟨[⟨"Ali", "ali@example.com", some "pw"⟩], none,
        [⟨"Ali", "ali@example.com", some "pw"⟩], none⟩
      "ali@example.com" (some "pw")).1 = true :=
  ⟨(login_iff_matching_identity initAuthState "ali@example.com"
      (some "pw")).2.2 rfl,
    (login_iff_matching_identity ⟨[⟨"Ali", "ali@example.com", some "pw"⟩],
        none, [⟨"Ali", "ali@example.com", some "pw"⟩], none⟩
      "ali@example.com" (some "pw")).1.mpr
      ⟨⟨"Ali", "ali@example.com", some "pw"⟩, by simp, rfl, rfl⟩⟩

/-- C1: from the empty state, register returns true and appends the new
identity to the in-memory and persisted registries, but the login it
performs searches the users list captured before the state update, so the
active session stays absent; the immediately following login does set a
session, which therefore differs from the one left by register. -/
theorem register_leaves_session_unset :
    (register initAuthState "Ali" "ali@example.com" (some "pw")).1 = true ∧
    (register initAuthState "Ali" "ali@example.com" (some "pw")).2.users =
      [⟨"Ali", "ali@example.com", some "pw"⟩] ∧
    (register initAuthState "Ali" "ali@example.com" (some "pw")).2.storedUsers =
      [⟨"Ali", "ali@example.com", some "pw"⟩] ∧
    (register initAuthState "Ali" "ali@example.com" (some "pw")).2.currentUser =
      none ∧
    (login (register initAuthState "Ali" "ali@example.com" (some "pw")).2
        "ali@example.com" (some "pw")).2.currentUser =
      some ⟨"Ali", "ali@example.com"⟩ := by
  refine ⟨rfl, rfl, rfl, rfl, rfl⟩

lemma login_users (s : AuthState) (e : String) (p : Option String) :
    (login s e p).2.users = s.users := by
  unfold login
  cases s.users.find? (fun u => u.email == e && u.password == p) <;> rfl

lemma register_users (s : AuthState) (n e : String) (p : Option String) :
    (register s n e p).2.users =
      if s.users.any (fun u => u.email == e) then s.users
      else s.users ++ [⟨n, e, p⟩] := by
  unfold register
  by_cases h : s.users.any (fun u => u.email == e)
  · rw [if_pos h, if_pos h]
  · rw [if_neg h, if_neg h]
    cases s.users.find? (fun u => u.email == e && u.password == p) <;> rfl

/-- The emails stored in the registry are pairwise distinct. -/
def emailsDistinct (s : AuthState) : Prop :=
  s.users.Pairwise (fun a b => a.email ≠ b.email)

lemma emailsDistinct_applyAuthOp (s : AuthState) (op : AuthOp)
    (h : emailsDistinct s) : emailsDistinct (applyAuthOp s op) := by
  cases op with
  | registerOp n e p =>
    unfold emailsDistinct
    simp only [applyAuthOp]
    rw [register_users]
    by_cases hc : s.users.any (fun u => u.email == e)
    · rw [if_pos hc]
      exact h
    · rw [if_neg hc, List.pairwise_append]
      have hall : ∀ x ∈ s.users, x.email ≠ e := by
        simpa [List.any_eq_true] using hc
      refine ⟨h, by simp, fun a ha b hb => ?_⟩
      rcases List.mem_singleton.mp hb with rfl
      exact hall a ha
  | loginOp e p =>
    unfold emailsDistinct
    simp only [applyAuthOp, login_users]
    exact h
  | logoutOp => exact h

lemma emailsDistinct_applyAuthOps (s : AuthState) (ops : List AuthOp)
    (h : emailsDistinct s) : emailsDistinct (applyAuthOps s ops) := by
  induction ops generalizing s with
  | nil => exact h
  | cons op t ih => exact ih _ (emailsDistinct_applyAuthOp s op h)

lemma register_existing_email (s : AuthState) (n e : String)
    (p : Option String) (hex : ∃ u ∈ s.users, u.email = e) :
    register s n e p = (false, s) := by
  unfold register
  rw [if_pos]
  obtain ⟨u, hu, he⟩ := hex
  exact List.any_eq_true.mpr ⟨u, hu, by simp [he]⟩

/-- Under pairwise-distinct emails, a member's email is matched by exactly
one stored identity. -/
lemma countP_email_of_mem (users : List User) (u : User)
    (hp : users.Pairwise (fun a b => a.email ≠ b.email)) (hu : u ∈ users) :
    users.countP (fun i => i.email == u.email) = 1 := by
  induction users with
  | nil => cases hu
  | cons a t ih =>
    rw [List.pairwise_cons] at hp
    rcases List.mem_cons.mp hu with rfl | hmem
    · have hz : t.countP (fun i => i.email == u.email) = 0 := by
        rw [List.countP_eq_zero]
        intro i hi
        simp [Ne.symm (hp.1 i hi)]
      simp [List.countP_cons, hz]
    · have ha : (a.email == u.email) = false := by
        simpa using hp.1 u hmem
      simp [List.countP_cons, ha, ih hp.2 hmem]

/-- C6: every auth state reachable from the empty registry keeps emails
unique, and registering an email that is already stored returns false,
leaves the state unchanged and leaves exactly one identity with that
email. -/
theorem registry_email_unique :
    (∀ ops : List AuthOp,
      (applyAuthOps initAuthState ops).users.Pairwise
        (fun a b => a.email ≠ b.email)) ∧
    (∀ (ops : List AuthOp) (n e : String) (p : Option String),
      (∃ u ∈ (applyAuthOps initAuthState ops).users, u.email = e) →
        register (applyAuthOps initAuthState ops) n e p =
          (false, applyAuthOps initAuthState ops) ∧
        (applyAuthOps initAuthState ops).users.countP
          (fun u => u.email == e) = 1) := by
  have hinv : ∀ ops : List AuthOp,
      (applyAuthOps initAuthState ops).users.Pairwise
        (fun a b => a.email ≠ b.email) := by
    intro ops
    exact emailsDistinct_applyAuthOps initAuthState ops (by simp [emailsDistinct, initAuthState])
  refine ⟨hinv, fun ops n e p hex => ⟨register_existing_email _ n e p hex, ?_⟩⟩
  obtain ⟨u, hu, he⟩ := hex
  rw [← he]
  exact countP_email_of_mem _ u (hinv ops) hu

/-- Closed witness: a second registration with an already stored email is
rejected and the registry keeps exactly one identity with that email. -/
theorem registry_email_unique_witness :
    register (applyAuthOps initAuthState
        [.registerOp "Ali" "a@b.com" (some "pw")]) "Bob" "a@b.com"
        (some "pw2") =
      (false, applyAuthOps initAuthState
        [.registerOp "Ali" "a@b.com" (some "pw")]) ∧
    (applyAuthOps initAuthState
        [.registerOp "Ali" "a@b.com" (some "pw")]).users.countP
      (fun u => u.email == "a@b.com") = 1 :=
  registry_email_unique.2 [.registerOp "Ali" "a@b.com" (some "pw")]
    "Bob" "a@b.com" (some "pw2")
    ⟨⟨"Ali", "a@b.com", some "pw"⟩, by decide, rfl⟩

/-! ### Checkout and routing lemmas -/

/-- C8: either dispatch action on a non-empty cart leaves the cart empty
while the retained order snapshot holds the pre-dispatch items, the
pre-dispatch subtotal and the unchanged billing details. -/
theorem dispatch_clears_cart_keeps_snapshot :
    ∀ s : CheckoutState, s.cartItems ≠ [] →
      (handleWhatsAppOrder s).2.cartItems = [] ∧
      (handleEmailOrder s).2.cartItems = [] ∧
      (handleWhatsAppOrder s).2.placedOrder =
        some ⟨s.billingDetails, s.cartItems, cartTotal s.cartItems⟩ ∧
      (handleEmailOrder s).2.placedOrder =
        some ⟨s.billingDetails, s.cartItems, cartTotal s.cartItems⟩ ∧
      (handleWhatsAppOrder s).2.billingDetails = s.billingDetails ∧
      (handleEmailOrder s).2.billingDetails = s.billingDetails := by
  intro s _
  exact ⟨rfl, rfl, rfl, rfl, rfl, rfl⟩

/-- Closed witness for the dispatch theorem at a concrete one-item cart. -/
theorem dispatch_clears_cart_keeps_snapshot_witness :
    (handleWhatsAppOrder ⟨[⟨1, "Shilajit", 1500, 1⟩],
        ⟨"Ali", "K", "a@b.com", "1", "A", "C", "S", "Z"⟩,
        none⟩).2.cartItems = [] :=
  (dispatch_clears_cart_keeps_snapshot
    ⟨[⟨1, "Shilajit", 1500, 1⟩],
      ⟨"Ali", "K", "a@b.com", "1", "A", "C", "S", "Z"⟩, none⟩
    (by decide)).1

/-- C7: the route dispatch sends the product fragment to the product page
with its parsed id, each fixed static fragment to its page, and every
other fragment to the home page. -/
theorem renderPage_dispatch :
    renderPage "#/product/42" = .product 42 ∧
    renderPage "#/" = .home ∧
    renderPage "#/shop" = .shop ∧
    renderPage "#/about" = .about ∧
    renderPage "#/contact" = .contact ∧
    renderPage "#/checkout" = .checkout ∧
    renderPage "#/auth" = .auth ∧
    renderPage "#/refund-policy" = .refundPolicy ∧
    renderPage "#/privacy-policy" = .privacyPolicy ∧
    renderPage "#/terms" = .terms ∧
    renderPage "#/bogus" = .home ∧
    (∀ route : String, matchesProductRoute route = false →
      route ∉ ["#/shop", "#/about", "#/contact", "#/checkout", "#/auth",
        "#/refund-policy", "#/privacy-policy", "#/terms"] →
      renderPage route = .home) := by
  refine ⟨by decide, by decide, by decide, by decide, by decide, by decide,
    by decide, by decide, by decide, by decide, by decide,
    fun route hprod hmem => ?_⟩
  simp only [List.mem_cons, List.not_mem_nil, or_false, not_or] at hmem
  obtain ⟨h1, h2, h3, h4, h5, h6, h7, h8⟩ := hmem
  unfold renderPage
  rw [if_neg (by simp [hprod])]
  unfold staticDispatch
  simp [h1, h2, h3, h4, h5, h6, h7, h8]

/-- Closed witness: an unrecognized fragment dispatches to the home
page. -/
theorem renderPage_dispatch_witness :
    renderPage "#/unknown-fragment" = .home :=
  renderPage_dispatch.2.2.2.2.2.2.2.2.2.2.2 "#/unknown-fragment"
    (by decide) (by decide)

/-! ### Order message lemmas -/

/-- The customer-details header of the order message, before the item
lines are appended. -/
def orderHeader (b : BillingDetails) : String :=
  let message := "*New Order from Skardu Organic*\n\n"
  let message := message ++ "*Customer Details:*\n"
  let message := message ++ "Name: " ++ b.firstName ++ " " ++ b.lastName ++ "\n"
  let message := message ++ "Email: " ++ b.email ++ "\n"
  let message := message ++ "Phone: " ++ b.phone ++ "\n"
  let message := message ++ "Address: " ++ b.address ++ ", " ++ b.city ++ ", " ++
    b.state ++ " " ++ b.zip ++ "\n\n"
  message ++ "*Order Summary:*\n"

lemma constructStoreOrderMessage_eq (b : BillingDetails)
    (items : List CartItem) :
    constructStoreOrderMessage b items =
      (items.foldl (fun acc item => acc ++ itemLine item) (orderHeader b)) ++
        "\n*Total: Rs " ++ toString (cartTotal items) ++ "*" := rfl

/-- Appending item lines only extends the accumulator on the right. -/
lemma foldl_itemLine_extends (items : List CartItem) (acc : String) :
    ∃ y, items.foldl (fun acc item => acc ++ itemLine item) acc = acc ++ y := by
  induction items generalizing acc with
  | nil => exact ⟨"", by simp⟩
  | cons a t ih =>
    obtain ⟨y, hy⟩ := ih (acc ++ itemLine a)
    exact ⟨itemLine a ++ y, by rw [List.foldl_cons, hy, String.append_assoc]⟩

/-- Every member item's line occurs inside the folded item lines. -/
lemma itemLine_infix_foldl (items : List CartItem) (acc : String)
    (i : CartItem) (hi : i ∈ items) :
    ∃ x y, items.foldl (fun acc item => acc ++ itemLine item) acc
      = x ++ itemLine i ++ y := by
  induction items generalizing acc with
  | nil => cases hi
  | cons a t ih =>
    rw [List.foldl_cons]
    rcases List.mem_cons.mp hi with rfl | hmem
    · obtain ⟨y, hy⟩ := foldl_itemLine_extends t (acc ++ itemLine i)
      exact ⟨acc, y, by rw [hy]⟩
    · exact ih (acc ++ itemLine a) hmem

/-- Each cart item's rendered line is a substring of the composed order
message. -/
lemma message_contains_itemLine (b : BillingDetails) (items : List CartItem)
    (i : CartItem) (hi : i ∈ items) :
    ∃ x y, constructStoreOrderMessage b items = x ++ itemLine i ++ y := by
  obtain ⟨x, y, hxy⟩ := itemLine_infix_foldl items (orderHeader b) i hi
  refine ⟨x, ((y ++ "\n*Total: Rs ") ++ toString (cartTotal items)) ++ "*", ?_⟩
  rw [constructStoreOrderMessage_eq, hxy]
  simp [String.append_assoc]

/-- The composed order message ends with the total line. -/
lemma message_trailing_total (b : BillingDetails) (items : List CartItem) :
    ∃ x, constructStoreOrderMessage b items =
      x ++ "\n*Total: Rs " ++ toString (cartTotal items) ++ "*" :=
  ⟨_, constructStoreOrderMessage_eq b items⟩

/-- C2: the checkout order message for customer Ali with the single item
Shilajit, quantity 1, unit price 1500 contains the line
`Shilajit (x1) - Rs 1500` and ends with the total line `Total: Rs 1500`;
in general the message contains one rendered line per cart item (name,
quantity, line total) and ends with the total line for the cart
subtotal. -/
theorem order_message_contents :
    (∀ b : BillingDetails, b.firstName = "Ali" →
      (∃ x y, constructStoreOrderMessage b [⟨1, "Shilajit", 1500, 1⟩]
        = x ++ "Shilajit (x1) - Rs 1500" ++ y) ∧
      (∃ x, constructStoreOrderMessage b [⟨1, "Shilajit", 1500, 1⟩]
        = x ++ "\n*Total: Rs 1500*")) ∧
    (∀ (b : BillingDetails) (items : List CartItem),
      (∀ i ∈ items, ∃ x y,
        constructStoreOrderMessage b items = x ++ itemLine i ++ y) ∧
      (∃ x, constructStoreOrderMessage b items =
        x ++ "\n*Total: Rs " ++ toString (cartTotal items) ++ "*")) := by
  constructor
  · intro b _
    constructor
    · obtain ⟨x, y, hxy⟩ := message_contains_itemLine b
        [⟨1, "Shilajit", 1500, 1⟩] ⟨1, "Shilajit", 1500, 1⟩ (by simp)
      have hline : itemLine (⟨1, "Shilajit", 1500, 1⟩ : CartItem)
          = "- " ++ "Shilajit (x1) - Rs 1500" ++ "\n" := rfl
      refine ⟨x ++ "- ", "\n" ++ y, ?_⟩
      rw [hxy, hline]
      simp only [String.append_assoc]
    · obtain ⟨x, hx⟩ := message_trailing_total b [⟨1, "Shilajit", 1500, 1⟩]
      refine ⟨x, ?_⟩
      rw [hx]
      simp only [String.append_assoc]
      congr 1
  · intro b items
    exact ⟨fun i hi => message_contains_itemLine b items i hi,
      message_trailing_total b items⟩

/-- Closed witness: the message at concrete billing details and the
one-item Shilajit cart contains the item line. -/
theorem order_message_contents_witness :
    ∃ x y, constructStoreOrderMessage
        ⟨"Ali", "K", "a@b.com", "1", "A", "C", "S", "Z"⟩
        [⟨1, "Shilajit", 1500, 1⟩]
      = x ++ "Shilajit (x1) - Rs 1500" ++ y :=
  (order_message_contents.1 ⟨"Ali", "K", "a@b.com", "1", "A", "C", "S", "Z"⟩
    rfl).1

end SkarduStore
